import Mathlib

/-
Shallow embedding of the inventory-management pipeline
(src/inventory_optimization/analysis.py, inventory_math.py,
recommendations.py, and the composition in scripts/build_demo_data.py).

Modelling conventions:
* Floating-point numbers are modelled as rationals (ℚ); every rational is
  finite, so the `np.isfinite` guards of the source are vacuously true here.
* `np.sqrt` has no exact rational counterpart, so the functions that call it
  take an explicit square-root parameter `sq : ℚ → ℚ`; theorems either hold
  for every `sq` or state exactly which values of `sq` they use.
* PartNum strings are modelled as natural-number keys: the pandas code only
  uses equality and the fixed total order on part numbers, which ℕ mirrors.
* Calendar months are modelled by integer month indices (year*12 + month-1);
  a date comparison against the first day of the start month and the last
  day of the current month reduces to a comparison of month indices.
-/

/-- Python's built-in `round`, as used by `int(round(x))` in
`inventory_math.py`: round to nearest, ties to the even integer. -/
def pyRound (x : ℚ) : ℤ :=
  let f := ⌊x⌋
  let r := x - f
  if r < 1 / 2 then f
  else if 1 / 2 < r then f + 1
  else if f % 2 = 0 then f else f + 1

/-- Insert a key into an ascending-sorted list of keys. -/
def insertAsc (x : ℕ) : List ℕ → List ℕ
  | [] => [x]
  | h :: t => if x ≤ h then x :: h :: t else h :: insertAsc x t

/-- Ascending key sort; models the ascending key order that
`groupby`/`pivot_table` give their output index. -/
def sortAsc (l : List ℕ) : List ℕ := l.foldr insertAsc []

/-- Source: `df.groupby("PartNum", as_index=False)["TotalValue"].sum()` -
one row per distinct part, keys in ascending order, values summed. -/
def aggregate (rows : List (ℕ × ℚ)) : List (ℕ × ℚ) :=
  (sortAsc (rows.map Prod.fst).dedup).map
    (fun k => (k, ((rows.filter (fun r => r.1 == k)).map Prod.snd).sum))

/-- Insertion step of the model of `sort_values("TotalValue",
ascending=False)`.  The model sorts by value descending and realises one
concrete deterministic tie order (a row moves ahead only of rows with
strictly smaller value, so equal values keep their pre-sort order).  The
source's default quicksort guarantees no particular tie order on large
frames, so no theorem below relies on the modelled tie order; the concrete
counterexamples use aggregated frames of at most two rows, where the
source's sort runs its order-preserving insertion-sort base case and
agrees with the model. -/
def insertDescVal (x : ℕ × ℚ) : List (ℕ × ℚ) → List (ℕ × ℚ)
  | [] => [x]
  | h :: t => if h.2 ≤ x.2 then x :: h :: t else h :: insertDescVal x t

/-- The model of the descending value sort; see `insertDescVal` for the
tie-order caveat. -/
def sortDescVal (l : List (ℕ × ℚ)) : List (ℕ × ℚ) := l.foldr insertDescVal []

/-- Running-total step of `Series.cumsum()`. -/
def cumsumFrom (acc : ℚ) : List ℚ → List ℚ
  | [] => []
  | h :: t => (acc + h) :: cumsumFrom (acc + h) t

/-- Source: `agg["TotalValue"].cumsum()`. -/
def cumsum (l : List ℚ) : List ℚ := cumsumFrom 0 l

/-- One output row of `abc_classification`. -/
structure ABCRow where
  part : ℕ
  totalValue : ℚ
  cumPct : ℚ
  category : String
deriving DecidableEq, Repr

/-- Source: the `cat` helper inside `abc_classification`. -/
def abcCategory (aPct bPct p : ℚ) : String :=
  if p ≤ aPct then "A" else if p ≤ bPct then "B" else "C"

/-- Source: `df["TotalValue"].fillna(0.0)` - missing values become 0. -/
def abcFilled (rows : List (ℕ × Option ℚ)) : List (ℕ × ℚ) :=
  rows.map (fun r => (r.1, r.2.getD 0))

/-- Aggregated value per part. -/
def abcAgg (rows : List (ℕ × Option ℚ)) : List (ℕ × ℚ) :=
  aggregate (abcFilled rows)

/-- Aggregated rows sorted by value descending. -/
def abcSorted (rows : List (ℕ × Option ℚ)) : List (ℕ × ℚ) :=
  sortDescVal (abcAgg rows)

/-- Source: `float(agg["TotalValue"].sum())`, taken after the sort. -/
def abcTotalRaw (rows : List (ℕ × Option ℚ)) : ℚ :=
  ((abcSorted rows).map Prod.snd).sum

/-- Source: `... or 1.0` - a zero total is replaced by 1 to avoid a
division by zero. -/
def abcTotal (rows : List (ℕ × Option ℚ)) : ℚ :=
  if abcTotalRaw rows = 0 then 1 else abcTotalRaw rows

/-- Source: `abc_classification` in `analysis.py`.  Input rows are
(PartNum, TotalValue) pairs, the value possibly missing. -/
def abc_classification (rows : List (ℕ × Option ℚ)) (aPct bPct : ℚ) : List ABCRow :=
  let sorted := abcSorted rows
  let cums := cumsum (sorted.map Prod.snd)
  (sorted.zip cums).map (fun p =>
    { part := p.1.1, totalValue := p.1.2,
      cumPct := 100 * p.2 / abcTotal rows,
      category := abcCategory aPct bPct (100 * p.2 / abcTotal rows) })

/-- One demand observation: part, calendar month of the date, demand. -/
structure Obs where
  part : ℕ
  month : ℤ
  demand : ℚ
deriving DecidableEq, Repr

/-- One output row of `lmh_vod_classification`. -/
structure LMHRow where
  part : ℕ
  vod : ℚ
  avg_usage : ℚ
  std : ℚ
  lmh : String
deriving DecidableEq, Repr

/-- Month index of the first month of the trailing window.  Source:
`current_month_end - DateOffset(months=months-1) - MonthBegin(1)`, where
`current_month_end` is the last day of the month containing `now()`. -/
def windowStart (todayM : ℤ) (months : ℕ) : ℤ := todayM - ((months : ℤ) - 1)

/-- Source: `(df["Date"] >= start_date) & (df["Date"] <= current_month_end)`.
Because `start_date` is the first day of the start month and
`current_month_end` the last day of the current month, a date passes the
filter iff its month index lies between the two bounds. -/
def inWindow (todayM : ℤ) (months : ℕ) (m : ℤ) : Bool :=
  decide (windowStart todayM months ≤ m) && decide (m ≤ todayM)

/-- The window-filtered observation rows. -/
def lmhFiltered (todayM : ℤ) (months : ℕ) (rows : List Obs) : List Obs :=
  rows.filter (fun r => inWindow todayM months r.month)

/-- Source: `pd.period_range(start=start_date, end=current_month_end)`. -/
def lmhAllMonths (todayM : ℤ) (months : ℕ) : List ℤ :=
  (List.range months).map (fun i => windowStart todayM months + (i : ℤ))

/-- One cell of `pivot_table(..., aggfunc="sum").reindex(...).fillna(0.0)`:
demand of one part summed over one month, 0 when no row matches. -/
def monthlySum (todayM : ℤ) (months : ℕ) (rows : List Obs) (p : ℕ) (m : ℤ) : ℚ :=
  (((lmhFiltered todayM months rows).filter
      (fun r => r.part == p && r.month == m)).map Obs.demand).sum

/-- One pivot row: the monthly demand series of a part over the window. -/
def lmhSeries (todayM : ℤ) (months : ℕ) (rows : List Obs) (p : ℕ) : List ℚ :=
  (lmhAllMonths todayM months).map (monthlySum todayM months rows p)

/-- Index of the pivot table: distinct parts of the filtered frame in
ascending order. -/
def lmhParts (todayM : ℤ) (months : ℕ) (rows : List Obs) : List ℕ :=
  sortAsc ((lmhFiltered todayM months rows).map Obs.part).dedup

/-- Source: `df.groupby("PartNum").size()` - raw transaction rows per part
inside the window. -/
def lmhTxnCount (todayM : ℤ) (months : ℕ) (rows : List Obs) (p : ℕ) : ℕ :=
  ((lmhFiltered todayM months rows).filter (fun r => r.part == p)).length

/-- Source: `.mean(axis=1)` over the month columns. -/
def listMean (l : List ℚ) : ℚ := l.sum / l.length

/-- Source: `.std(axis=1, ddof=1)` squared, i.e. the sample variance; with
fewer than two samples pandas yields NaN (which downstream classifies as
"H"), folded to 0 in the rational model. -/
def sampleVar (l : List ℚ) : ℚ :=
  if l.length ≤ 1 then 0
  else ((l.map (fun x => (x - listMean l) ^ 2)).sum) / ((l.length : ℚ) - 1)

/-- Source: `np.where(pivot["avg_usage"] == 0, 0.0, std / avg_usage)`. -/
def vodOf (mean std : ℚ) : ℚ := if mean = 0 then 0 else std / mean

/-- Source: the `np.select` over the three CV bands with default "H". -/
def lmhSelect (low high v : ℚ) : String :=
  if v ≤ low then "L"
  else if low < v ∧ v ≤ high then "M"
  else if high < v then "H"
  else "H"

/-- Source: `lmh_vod_classification` in `analysis.py`, with the month index
of `pd.Timestamp.now()` passed explicitly as `todayM` and the square root
used by `std` passed as `sq`.  The final `pivot.loc[~has_sufficient_data,
"LMH"] = "H"` override is the outer `if`. -/
def lmhClassification (sq : ℚ → ℚ) (todayM : ℤ) (months : ℕ)
    (low high : ℚ) (minTxn : ℕ) (rows : List Obs) : List LMHRow :=
  (lmhParts todayM months rows).map (fun p =>
    let s := lmhSeries todayM months rows p
    let avg := listMean s
    let sd := sq (sampleVar s)
    let v := vodOf avg sd
    { part := p, vod := v, avg_usage := avg, std := sd,
      lmh := if minTxn ≤ lmhTxnCount todayM months rows p
             then lmhSelect low high v else "H" })

/-- One output row of `make_nine_box`. -/
structure NineRow where
  part : ℕ
  totalValue : ℚ
  cumPct : ℚ
  category : String
  lmh : String
  nineBox : String
deriving DecidableEq, Repr

/-- One merged row of `make_nine_box`: left join on PartNum, then
`LMH.fillna("H")`, then `9_box = Category + LMH`. -/
def nineRowFor (lmhRows : List LMHRow) (a : ABCRow) : NineRow :=
  let l := ((lmhRows.find? (fun r => r.part == a.part)).map LMHRow.lmh).getD "H"
  { part := a.part, totalValue := a.totalValue, cumPct := a.cumPct,
    category := a.category, lmh := l, nineBox := a.category ++ l }

/-- Source: `make_nine_box` in `analysis.py`. -/
def make_nine_box (abcRows : List ABCRow) (lmhRows : List LMHRow) : List NineRow :=
  abcRows.map (nineRowFor lmhRows)

/-- Source: `ServiceLevelPolicy.default()` in `inventory_math.py`. -/
def defaultPolicy : List (String × ℚ) :=
  [("AL", 0.97), ("AM", 0.97), ("AH", 0.97),
   ("BL", 0.93), ("BM", 0.93), ("BH", 0.93),
   ("CL", 0.90), ("CM", 0.90), ("CH", 0.85)]

/-- Source: `ServiceLevelPolicy.get` - dictionary lookup with fallback
service level 0.85. -/
def policyGet (policy : List (String × ℚ)) (nine_box : String) : ℚ :=
  ((policy.find? (fun e => e.1 == nine_box)).map Prod.snd).getD 0.85

/-- Source: `safety_stock` in `inventory_math.py`.  The `np.isfinite`
guard is vacuous over ℚ. -/
def safety_stock (sq : ℚ → ℚ) (std_monthly lead_time_days z : ℚ) : ℤ :=
  let lt_m := max (lead_time_days / 30) 0
  let ss := z * std_monthly * sq lt_m
  if ss < 0 then 0 else pyRound ss

/-- Source: `reorder_point` in `inventory_math.py`. -/
def reorder_point (avg_monthly lead_time_days : ℚ) (safety_stock_units : ℤ) : ℤ :=
  let lt_m := max (lead_time_days / 30) 0
  let rop := avg_monthly * lt_m + (safety_stock_units : ℚ)
  if rop < 0 then 0 else pyRound rop

/-- Source: `eoq` in `inventory_math.py`. -/
def eoq (sq : ℚ → ℚ) (annual_demand ordering_cost unit_cost holding_rate : ℚ) : ℤ :=
  let h := unit_cost * holding_rate
  if h ≤ 0 ∨ annual_demand ≤ 0 ∨ ordering_cost ≤ 0 then 0
  else
    let q := sq (2 * annual_demand * ordering_cost / h)
    if q < 0 then 0 else pyRound q

/-- One input row of `compute_actions`.  A `none` purchase-order quantity
models an input frame with no TotalPOQty column at all, which
`df.get("TotalPOQty", 0)` replaces by the scalar 0. -/
structure PartRecord where
  onHandQty : ℤ
  totalPOQty : Option ℤ
  reorderPoint : ℤ
  eoq : ℤ
  unitCost : ℚ
deriving DecidableEq, Repr

/-- The recommendation columns `compute_actions` adds to a row. -/
structure RecRow where
  totalInv : ℤ
  action : String
  quantity : ℤ
  changeValue : ℚ
deriving DecidableEq, Repr

/-- Row-level semantics of `compute_actions` in `recommendations.py`: the
initial "No Action"/0 assignment followed by the `order` mask assignment and
then the `reduce` mask assignment (in that order), then
`ChangeValue = Calculated_Quantity * UnitCost`. -/
def compute_actions_row (r : PartRecord) : RecRow :=
  let totalInv := r.onHandQty + r.totalPOQty.getD 0
  let s0 : String × ℤ := ("No Action", 0)
  let s1 := if totalInv < r.reorderPoint then ("Order", r.eoq) else s0
  let s2 := if totalInv > r.reorderPoint + r.eoq
            then ("Reduce Stock", totalInv - (r.reorderPoint + r.eoq)) else s1
  { totalInv := totalInv, action := s2.1, quantity := s2.2,
    changeValue := (s2.2 : ℚ) * r.unitCost }

/-- Source: `compute_actions`, applied row-wise. -/
def compute_actions (rows : List PartRecord) : List RecRow :=
  rows.map compute_actions_row

/-- Modelled from the spec, for comparison with `compute_actions_row`: the
three-branch decision rule of spec section 4.6 exactly as written
(if / else if / else). -/
def recommendationSpecRule (r : PartRecord) : RecRow :=
  let ti := r.onHandQty + r.totalPOQty.getD 0
  if ti < r.reorderPoint then
    { totalInv := ti, action := "Order", quantity := r.eoq,
      changeValue := (r.eoq : ℚ) * r.unitCost }
  else if ti > r.reorderPoint + r.eoq then
    { totalInv := ti, action := "Reduce Stock",
      quantity := ti - (r.reorderPoint + r.eoq),
      changeValue := ((ti - (r.reorderPoint + r.eoq) : ℤ) : ℚ) * r.unitCost }
  else
    { totalInv := ti, action := "No Action", quantity := 0,
      changeValue := ((0 : ℤ) : ℚ) * r.unitCost }

/-- Modelled from the spec (section 4.5), for comparison with `pyRound`:
round half away from zero, the tie-break rule the spec picks. -/
def roundHalfAwayFromZero (x : ℚ) : ℤ :=
  if 0 ≤ x then ⌊x + 1 / 2⌋ else -⌊-x + 1 / 2⌋

/-- A calendar date of a pipeline run. -/
structure RunDate where
  year : ℤ
  month : ℤ
  day : ℤ
deriving DecidableEq, Repr

/-- Month index of a date.  Source: `pd.Timestamp(today.year, today.month,
1) + MonthEnd(0)` uses only the year and month of `now()`. -/
def monthIndex (d : RunDate) : ℤ := 12 * d.year + (d.month - 1)

/-- The variability classification as run at a given date. -/
def lmhRun (sq : ℚ → ℚ) (today : RunDate) (months : ℕ)
    (low high : ℚ) (minTxn : ℕ) (rows : List Obs) : List LMHRow :=
  lmhClassification sq (monthIndex today) months low high minTxn rows

/-- One sales row as consumed by `build_demo_data.main`: both the value
column (for ABC) and the dated demand column (for LMH). -/
structure SalesRow where
  part : ℕ
  month : ℤ
  totalDemand : ℚ
  totalValue : Option ℚ
deriving DecidableEq, Repr

/-- The classification stage of the pipeline in `build_demo_data.main`:
ABC + LMH + nine-box from one sales table, run at the given date. -/
def pipelineNine (sq : ℚ → ℚ) (today : RunDate) (months : ℕ)
    (low high : ℚ) (minTxn : ℕ) (aPct bPct : ℚ) (rows : List SalesRow) : List NineRow :=
  make_nine_box
    (abc_classification (rows.map (fun r => (r.part, r.totalValue))) aPct bPct)
    (lmhRun sq today months low high minTxn
      (rows.map (fun r => { part := r.part, month := r.month, demand := r.totalDemand })))

/-- A concrete stand-in for the square-root parameter, used to instantiate
closed statements whose truth does not depend on the square root's values. -/
def sqZero : ℚ → ℚ := fun _ => 0

/-! ### Helper lemmas about `pyRound` -/

theorem pyRound_intCast (k : ℤ) : pyRound (k : ℚ) = k := by
  simp only [pyRound, Int.floor_intCast, sub_self]
  norm_num

theorem pyRound_nonneg {x : ℚ} (hx : 0 ≤ x) : 0 ≤ pyRound x := by
  have hf : (0 : ℤ) ≤ ⌊x⌋ := Int.floor_nonneg.mpr hx
  simp only [pyRound]
  split_ifs <;> omega

theorem pyRound_int_add_half (k : ℤ) :
    pyRound ((k : ℚ) + 1 / 2) = if k % 2 = 0 then k else k + 1 := by
  have hf : ⌊(k : ℚ) + 1 / 2⌋ = k := by
    rw [add_comm, Int.floor_add_int]
    norm_num
  simp only [pyRound, hf]
  norm_num

/-! ### C1: the recommendation decision rule -/

/-- C1: for every part record with non-negative EOQ (as all EOQ values the
pipeline produces are), `compute_actions` computes the total inventory
position as on-hand plus open PO quantity and emits exactly the spec's
three-branch rule: position < reorder point gives "Order" with quantity EOQ;
otherwise position > reorder point + EOQ gives "Reduce Stock" with quantity
position - (reorder point + EOQ); otherwise "No Action" with quantity 0 -
and ChangeValue is quantity times unit cost in every branch. -/
theorem C1_compute_actions_spec_rule (r : PartRecord) (h : 0 ≤ r.eoq) :
    compute_actions_row r = recommendationSpecRule r := by
  unfold compute_actions_row recommendationSpecRule
  by_cases h1 : r.onHandQty + r.totalPOQty.getD 0 < r.reorderPoint
  · have h2 : ¬ (r.onHandQty + r.totalPOQty.getD 0 > r.reorderPoint + r.eoq) := by omega
    simp [h1, h2]
  · by_cases h2 : r.onHandQty + r.totalPOQty.getD 0 > r.reorderPoint + r.eoq
    · simp [h1, h2]
    · simp [h1, h2]

/-- Witness for C1 at the spec's example: OnHandQty=5, TotalPOQty=0,
ReorderPoint=20, EOQ=30, UnitCost=10 gives action "Order", quantity 30,
ChangeValue 300. -/
theorem C1_compute_actions_spec_rule_witness :
    compute_actions_row ⟨5, some 0, 20, 30, 10⟩ = recommendationSpecRule ⟨5, some 0, 20, 30, 10⟩ ∧
    compute_actions_row ⟨5, some 0, 20, 30, 10⟩ =
      { totalInv := 5, action := "Order", quantity := 30, changeValue := 300 } :=
  ⟨C1_compute_actions_spec_rule ⟨5, some 0, 20, 30, 10⟩ (by decide),
   by norm_num [compute_actions_row]⟩

/-! ### C10: input tables without a TotalPOQty column -/

/-- C10: for an input row from a table lacking the TotalPOQty column
(modelled as `totalPOQty = none`), `compute_actions` treats the open PO
quantity as 0: the result is the same as with an explicit 0, and the total
inventory position equals the on-hand quantity alone. -/
theorem C10_missing_po_column (r : PartRecord) (h : r.totalPOQty = none) :
    compute_actions_row r = compute_actions_row { r with totalPOQty := some 0 } ∧
    (compute_actions_row r).totalInv = r.onHandQty := by
  simp [compute_actions_row, h]

/-- Witness for C10 at a concrete record. -/
theorem C10_missing_po_column_witness :
    compute_actions_row ⟨5, none, 20, 30, 10⟩ = compute_actions_row ⟨5, some 0, 20, 30, 10⟩ ∧
    (compute_actions_row ⟨5, none, 20, 30, 10⟩).totalInv = 5 :=
  C10_missing_po_column ⟨5, none, 20, 30, 10⟩ rfl

/-! ### C2: clamping behaviour of the inventory-math formulas -/

/-- C2 counterexample: the claim says each formula returns 0 whenever any
required input is 0 or negative, but `reorder_point` with a zero average
monthly demand (a required input of its formula) and safety stock 5 returns
5, not 0. -/
theorem C2_counterexample : reorder_point 0 30 5 = 5 ∧ (5 : ℤ) ≠ 0 := by
  refine ⟨?_, by decide⟩
  have h30 : max ((30 : ℚ) / 30) 0 = 1 := by norm_num
  have h5 : (0 : ℚ) * max ((30 : ℚ) / 30) 0 + ((5 : ℤ) : ℚ) = ((5 : ℤ) : ℚ) := by
    push_cast
    ring
  simp only [reorder_point, h5]
  rw [if_neg (by norm_num), pyRound_intCast]

/-- C2 (amended): `safety_stock`, `reorder_point` and `eoq` always return a
non-negative integer; `eoq` returns 0 whenever holding cost, annual demand
or ordering cost is non-positive; `safety_stock` returns 0 whenever the
product z * std is non-positive (for any non-negative square root), and
whenever the lead time is non-positive.  A single zero input does not force
`reorder_point` to 0, because the safety-stock term remains (see the
counterexample); non-finite inputs do not exist in the rational model. -/
theorem C2_amended_clamp_nonneg :
    (∀ sq std lt z, 0 ≤ safety_stock sq std lt z) ∧
    (∀ avg lt s, 0 ≤ reorder_point avg lt s) ∧
    (∀ sq a oc uc hr, 0 ≤ eoq sq a oc uc hr) ∧
    (∀ sq a oc uc hr, uc * hr ≤ 0 ∨ a ≤ 0 ∨ oc ≤ 0 → eoq sq a oc uc hr = 0) ∧
    (∀ sq std lt z, (∀ x, 0 ≤ sq x) → z * std ≤ 0 → safety_stock sq std lt z = 0) ∧
    (∀ sq std lt z, sq 0 = 0 → lt ≤ 0 → safety_stock sq std lt z = 0) := by
  refine ⟨?_, ?_, ?_, ?_, ?_, ?_⟩
  · intro sq std lt z
    simp only [safety_stock]
    split_ifs with h
    · exact le_refl 0
    · exact pyRound_nonneg (not_lt.mp h)
  · intro avg lt s
    simp only [reorder_point]
    split_ifs with h
    · exact le_refl 0
    · exact pyRound_nonneg (not_lt.mp h)
  · intro sq a oc uc hr
    simp only [eoq]
    split_ifs with h1 h2
    · exact le_refl 0
    · exact le_refl 0
    · exact pyRound_nonneg (not_lt.mp h2)
  · intro sq a oc uc hr h
    simp only [eoq]
    rw [if_pos h]
  · intro sq std lt z hsq hzs
    have hss : z * std * sq (max (lt / 30) 0) ≤ 0 :=
      mul_nonpos_iff.mpr (Or.inr ⟨hzs, hsq _⟩)
    simp only [safety_stock]
    split_ifs with h
    · rfl
    · have : z * std * sq (max (lt / 30) 0) = 0 := le_antisymm hss (not_lt.mp h)
      rw [this]
      have h0 : ((0 : ℤ) : ℚ) = (0 : ℚ) := by norm_num
      rw [← h0, pyRound_intCast]
  · intro sq std lt z hsq0 hlt
    have hm : max (lt / 30) 0 = 0 :=
      max_eq_right (div_nonpos_iff.mpr (Or.inr ⟨hlt, by norm_num⟩))
    simp only [safety_stock, hm, hsq0, mul_zero]
    rw [if_neg (by norm_num)]
    have h0 : ((0 : ℤ) : ℚ) = (0 : ℚ) := by norm_num
    rw [← h0, pyRound_intCast]

/-- Witness for C2 (amended) at concrete inputs. -/
theorem C2_amended_clamp_nonneg_witness :
    0 ≤ safety_stock sqZero 1 30 1 ∧
    0 ≤ reorder_point 1 30 1 ∧
    0 ≤ eoq sqZero 1 1 1 1 ∧
    eoq sqZero 1 1 (-1) 1 = 0 ∧
    safety_stock sqZero (-1) 30 1 = 0 ∧
    safety_stock sqZero 1 (-5) 1 = 0 := by
  obtain ⟨h1, h2, h3, h4, h5, h6⟩ := C2_amended_clamp_nonneg
  exact ⟨h1 sqZero 1 30 1, h2 1 30 1, h3 sqZero 1 1 1 1,
    h4 sqZero 1 1 (-1) 1 (Or.inl (by norm_num)),
    h5 sqZero (-1) 30 1 (fun x => le_refl 0) (by norm_num),
    h6 sqZero 1 (-5) 1 rfl (by norm_num)⟩

/-! ### C5: rounding tie-break -/

/-- C5 counterexample: the claim says ties round away from zero, but the
Python `round` the code uses rounds the exact tie 2.5 to the even integer
2, while round-half-away-from-zero (the spec's choice) gives 3:
`reorder_point(2.5, 30, 0)` returns 2, not 3. -/
theorem C5_counterexample :
    reorder_point (5 / 2) 30 0 = 2 ∧ roundHalfAwayFromZero (5 / 2) = 3 := by
  constructor
  · have h : (5 / 2 : ℚ) * max ((30 : ℚ) / 30) 0 + ((0 : ℤ) : ℚ) = ((2 : ℤ) : ℚ) + 1 / 2 := by
      push_cast
      norm_num
    simp only [reorder_point, h]
    rw [if_neg (by push_cast; norm_num), pyRound_int_add_half]
    decide
  · have h : (5 / 2 : ℚ) + 1 / 2 = ((3 : ℤ) : ℚ) := by push_cast; norm_num
    simp only [roundHalfAwayFromZero]
    rw [if_pos (by norm_num), h, Int.floor_intCast]

/-- C5 (amended): the rounding used by `safety_stock`, `reorder_point` and
`eoq` is Python's round-half-to-even: whenever the real-valued intermediate
result is a non-negative exact tie k + 1/2, the returned integer is k when k
is even and k + 1 when k is odd - the even neighbour, not the one farther
from zero. -/
theorem C5_amended_round_half_to_even :
    (∀ k : ℤ, 0 ≤ k →
      reorder_point ((k : ℚ) + 1 / 2) 30 0 = if k % 2 = 0 then k else k + 1) ∧
    (∀ (sq : ℚ → ℚ) (std lt z : ℚ) (k : ℤ), 0 ≤ k →
      z * std * sq (max (lt / 30) 0) = (k : ℚ) + 1 / 2 →
      safety_stock sq std lt z = if k % 2 = 0 then k else k + 1) ∧
    (∀ (sq : ℚ → ℚ) (a oc uc hr : ℚ) (k : ℤ), 0 ≤ k →
      ¬(uc * hr ≤ 0 ∨ a ≤ 0 ∨ oc ≤ 0) →
      sq (2 * a * oc / (uc * hr)) = (k : ℚ) + 1 / 2 →
      eoq sq a oc uc hr = if k % 2 = 0 then k else k + 1) := by
  refine ⟨?_, ?_, ?_⟩
  · intro k hk
    have hk' : (0 : ℚ) ≤ (k : ℚ) := by exact_mod_cast hk
    have h : ((k : ℚ) + 1 / 2) * max ((30 : ℚ) / 30) 0 + ((0 : ℤ) : ℚ) = (k : ℚ) + 1 / 2 := by
      push_cast
      norm_num
    simp only [reorder_point, h]
    rw [if_neg (by linarith), pyRound_int_add_half]
  · intro sq std lt z k hk heq
    have hk' : (0 : ℚ) ≤ (k : ℚ) := by exact_mod_cast hk
    simp only [safety_stock, heq]
    rw [if_neg (by linarith), pyRound_int_add_half]
  · intro sq a oc uc hr k hk hguard heq
    have hk' : (0 : ℚ) ≤ (k : ℚ) := by exact_mod_cast hk
    simp only [eoq, heq]
    rw [if_neg hguard, if_neg (by linarith), pyRound_int_add_half]

/-- Witness for C5 (amended) at the tie 5/2 = 2 + 1/2: all three functions
return the even neighbour 2. -/
theorem C5_amended_round_half_to_even_witness :
    reorder_point ((2 : ℤ) + 1 / 2) 30 0 = 2 ∧
    safety_stock (fun _ => (5 : ℚ) / 2) 1 30 1 = 2 ∧
    eoq (fun _ => (5 : ℚ) / 2) 1 1 1 1 = 2 := by
  obtain ⟨h1, h2, h3⟩ := C5_amended_round_half_to_even
  refine ⟨(h1 2 (by decide)).trans (by decide), ?_, ?_⟩
  · exact (h2 (fun _ => (5 : ℚ) / 2) 1 30 1 2 (by decide) (by push_cast; norm_num)).trans
      (by decide)
  · exact (h3 (fun _ => (5 : ℚ) / 2) 1 1 1 1 2 (by decide) (by norm_num)
      (by push_cast; norm_num)).trans (by decide)

/-! ### Helper lemmas about the sorts and the running total -/

theorem mem_insertAsc {x y : ℕ} {l : List ℕ} :
    y ∈ insertAsc x l ↔ y = x ∨ y ∈ l := by
  induction l with
  | nil => simp [insertAsc]
  | cons h t ih =>
    simp only [insertAsc]
    split_ifs
    · simp [List.mem_cons]
    · simp only [List.mem_cons, ih]
      tauto

theorem pairwise_insertAsc {x : ℕ} {l : List ℕ} (h : List.Pairwise (· ≤ ·) l) :
    List.Pairwise (· ≤ ·) (insertAsc x l) := by
  induction l with
  | nil => simp [insertAsc]
  | cons a t ih =>
    rcases List.pairwise_cons.mp h with ⟨ha, ht⟩
    simp only [insertAsc]
    split_ifs with hxa
    · refine List.Pairwise.cons ?_ h
      intro b hb
      rcases List.mem_cons.mp hb with rfl | hbt
      · exact hxa
      · exact le_trans hxa (ha b hbt)
    · refine List.Pairwise.cons ?_ (ih ht)
      intro b hb
      rcases mem_insertAsc.mp hb with rfl | hbt
      · omega
      · exact ha b hbt

theorem pairwise_sortAsc (l : List ℕ) : List.Pairwise (· ≤ ·) (sortAsc l) := by
  induction l with
  | nil => simp [sortAsc]
  | cons a t ih => exact pairwise_insertAsc ih

theorem mem_insertDescVal {x y : ℕ × ℚ} {l : List (ℕ × ℚ)} :
    y ∈ insertDescVal x l ↔ y = x ∨ y ∈ l := by
  induction l with
  | nil => simp [insertDescVal]
  | cons h t ih =>
    simp only [insertDescVal]
    split_ifs
    · simp [List.mem_cons]
    · simp only [List.mem_cons, ih]
      tauto

theorem mem_sortDescVal {y : ℕ × ℚ} {l : List (ℕ × ℚ)} :
    y ∈ sortDescVal l ↔ y ∈ l := by
  induction l with
  | nil => simp [sortDescVal]
  | cons h t ih =>
    show y ∈ insertDescVal h (sortDescVal t) ↔ _
    rw [mem_insertDescVal, ih]
    simp [List.mem_cons]

theorem pairwise_le_insertDescVal {x : ℕ × ℚ} {l : List (ℕ × ℚ)}
    (hl : List.Pairwise (fun a b : ℕ × ℚ => b.2 ≤ a.2) l) :
    List.Pairwise (fun a b : ℕ × ℚ => b.2 ≤ a.2) (insertDescVal x l) := by
  induction l with
  | nil => simp [insertDescVal]
  | cons a t ih =>
    rcases List.pairwise_cons.mp hl with ⟨ha, ht⟩
    simp only [insertDescVal]
    split_ifs with hax
    · refine List.Pairwise.cons ?_ hl
      intro b hb
      rcases List.mem_cons.mp hb with rfl | hbt
      · exact hax
      · exact le_trans (ha b hbt) hax
    · refine List.Pairwise.cons ?_ (ih ht)
      intro b hb
      rcases mem_insertDescVal.mp hb with rfl | hbt
      · exact le_of_not_le hax
      · exact ha b hbt

theorem pairwise_le_sortDescVal (l : List (ℕ × ℚ)) :
    List.Pairwise (fun a b : ℕ × ℚ => b.2 ≤ a.2) (sortDescVal l) := by
  induction l with
  | nil => simp [sortDescVal]
  | cons a t ih => exact pairwise_le_insertDescVal ih

theorem insertAsc_perm (x : ℕ) (l : List ℕ) : (insertAsc x l).Perm (x :: l) := by
  induction l with
  | nil => exact List.Perm.refl _
  | cons a t ih =>
    simp only [insertAsc]
    split_ifs
    · exact List.Perm.refl _
    · exact (List.Perm.cons a ih).trans (List.Perm.swap x a t)

theorem sortAsc_perm (l : List ℕ) : (sortAsc l).Perm l := by
  induction l with
  | nil => exact List.Perm.refl _
  | cons a t ih =>
    show (insertAsc a (sortAsc t)).Perm (a :: t)
    exact (insertAsc_perm a (sortAsc t)).trans (ih.cons a)

theorem sortAsc_eq_of_perm {l l' : List ℕ} (h : l.Perm l') : sortAsc l = sortAsc l' := by
  exact List.eq_of_perm_of_sorted ((sortAsc_perm l).trans (h.trans (sortAsc_perm l').symm))
    (pairwise_sortAsc l) (pairwise_sortAsc l')

theorem aggregate_eq_of_perm {rows rows' : List (ℕ × ℚ)} (h : rows.Perm rows') :
    aggregate rows = aggregate rows' := by
  unfold aggregate
  rw [sortAsc_eq_of_perm ((h.map Prod.fst).dedup)]
  apply List.map_congr_left
  intro k _
  rw [((h.filter (fun r => r.1 == k)).map Prod.snd).sum_eq]

theorem pairwise_zip_left {α β : Type} {R : α → α → Prop} :
    ∀ (l₁ : List α) (l₂ : List β), List.Pairwise R l₁ →
      List.Pairwise (fun p q : α × β => R p.1 q.1) (l₁.zip l₂) := by
  intro l₁
  induction l₁ with
  | nil => intro l₂ _; simp
  | cons a t ih =>
    intro l₂ h
    cases l₂ with
    | nil => simp
    | cons b s =>
      rcases List.pairwise_cons.mp h with ⟨ha, ht⟩
      simp only [List.zip_cons_cons]
      refine List.Pairwise.cons ?_ (ih s ht)
      intro q hq
      exact ha q.1 (List.of_mem_zip hq).1

theorem cumsumFrom_length (acc : ℚ) (l : List ℚ) :
    (cumsumFrom acc l).length = l.length := by
  induction l generalizing acc with
  | nil => simp [cumsumFrom]
  | cons h t ih => simp [cumsumFrom, ih]

theorem le_of_mem_cumsumFrom {l : List ℚ} (hl : ∀ x ∈ l, 0 ≤ x) :
    ∀ {acc y : ℚ}, y ∈ cumsumFrom acc l → acc ≤ y := by
  induction l with
  | nil => intro acc y hy; simp [cumsumFrom] at hy
  | cons h t ih =>
    intro acc y hy
    have hh : 0 ≤ h := hl h (List.mem_cons_self h t)
    simp only [cumsumFrom] at hy
    rcases List.mem_cons.mp hy with rfl | hyt
    · linarith
    · have := ih (fun x hx => hl x (List.mem_cons_of_mem h hx)) hyt
      linarith

theorem pairwise_cumsumFrom {l : List ℚ} (hl : ∀ x ∈ l, 0 ≤ x) (acc : ℚ) :
    List.Pairwise (· ≤ ·) (cumsumFrom acc l) := by
  induction l generalizing acc with
  | nil => simp [cumsumFrom]
  | cons h t ih =>
    have ht : ∀ x ∈ t, 0 ≤ x := fun x hx => hl x (List.mem_cons_of_mem h hx)
    simp only [cumsumFrom]
    exact List.Pairwise.cons (fun y hy => le_of_mem_cumsumFrom ht hy) (ih ht (acc + h))

theorem cumsumFrom_getLast? :
    ∀ {l : List ℚ}, l ≠ [] → ∀ acc : ℚ, (cumsumFrom acc l).getLast? = some (acc + l.sum) := by
  intro l
  induction l with
  | nil => intro h; exact absurd rfl h
  | cons a t ih =>
    intro _ acc
    cases t with
    | nil => simp [cumsumFrom]
    | cons b s =>
      have h2 := ih (by simp) (acc + a)
      have h3 : cumsumFrom acc (a :: b :: s) = (acc + a) :: cumsumFrom (acc + a) (b :: s) := rfl
      have h4 : cumsumFrom (acc + a) (b :: s) = (acc + a + b) :: cumsumFrom (acc + a + b) s := rfl
      rw [h3, h4, List.getLast?_cons_cons, ← h4, h2]
      simp [List.sum_cons, add_assoc]

theorem aggregate_snd_nonneg {rows : List (ℕ × ℚ)} (h : ∀ r ∈ rows, 0 ≤ r.2) :
    ∀ p ∈ aggregate rows, 0 ≤ p.2 := by
  intro p hp
  unfold aggregate at hp
  rcases List.mem_map.mp hp with ⟨k, _, rfl⟩
  apply List.sum_nonneg
  intro x hx
  rcases List.mem_map.mp hx with ⟨r, hr, rfl⟩
  exact h r (List.mem_filter.mp hr).1

theorem abcSorted_snd_nonneg {rows : List (ℕ × Option ℚ)}
    (h : ∀ r ∈ rows, 0 ≤ r.2.getD 0) :
    ∀ p ∈ abcSorted rows, 0 ≤ p.2 := by
  intro p hp
  have hp' : p ∈ abcAgg rows := mem_sortDescVal.mp hp
  refine aggregate_snd_nonneg ?_ p hp'
  intro r hr
  rcases List.mem_map.mp hr with ⟨r0, hr0, rfl⟩
  exact h r0 hr0

/-! ### C3: cumulative percentage invariants of the ABC classification -/

/-- C3: for every input with non-negative values, the cumulative percentage
column of the ABC classification, read in rank order, is non-decreasing, and
when the total value is strictly positive the last cumulative percentage is
exactly 100. -/
theorem C3_cumulative_pct (rows : List (ℕ × Option ℚ)) (aPct bPct : ℚ)
    (hnn : ∀ r ∈ rows, 0 ≤ r.2.getD 0) :
    List.Pairwise (· ≤ ·) ((abc_classification rows aPct bPct).map ABCRow.cumPct) ∧
    (0 < abcTotalRaw rows →
      ((abc_classification rows aPct bPct).map ABCRow.cumPct).getLast? = some 100) := by
  have hvnn : ∀ x ∈ (abcSorted rows).map Prod.snd, 0 ≤ x := by
    intro x hx
    rcases List.mem_map.mp hx with ⟨p, hp, rfl⟩
    exact abcSorted_snd_nonneg hnn p hp
  have htpos : 0 < abcTotal rows := by
    unfold abcTotal
    split_ifs with h0
    · norm_num
    · exact lt_of_le_of_ne (List.sum_nonneg hvnn) (Ne.symm h0)
  have hmap : (abc_classification rows aPct bPct).map ABCRow.cumPct
      = (cumsum ((abcSorted rows).map Prod.snd)).map
          (fun c => 100 * c / abcTotal rows) := by
    unfold abc_classification
    rw [List.map_map]
    show ((abcSorted rows).zip (cumsum ((abcSorted rows).map Prod.snd))).map
        ((fun c => 100 * c / abcTotal rows) ∘ Prod.snd) = _
    rw [← List.map_map, List.map_snd_zip]
    rw [cumsum, cumsumFrom_length, List.length_map]
  constructor
  · rw [hmap, List.pairwise_map]
    refine (pairwise_cumsumFrom hvnn 0).imp ?_
    intro a b hab
    exact (div_le_div_iff_of_pos_right htpos).mpr (by linarith)
  · intro hraw
    have hne : (abcSorted rows).map Prod.snd ≠ [] := by
      intro he
      rw [abcTotalRaw, he] at hraw
      simp at hraw
    rw [hmap, List.getLast?_map, cumsum, cumsumFrom_getLast? hne 0]
    have htot : abcTotal rows = abcTotalRaw rows := if_neg (ne_of_gt hraw)
    have hsum : ((abcSorted rows).map Prod.snd).sum = abcTotalRaw rows := rfl
    simp only [Option.map_some', zero_add, hsum, htot]
    rw [mul_div_assoc, div_self (ne_of_gt hraw), mul_one]

/-- Witness for C3 at a concrete two-part input with positive total. -/
theorem C3_cumulative_pct_witness :
    List.Pairwise (· ≤ ·)
      ((abc_classification [(1, some 10), (2, some 30)] 75 95).map ABCRow.cumPct) ∧
    ((abc_classification [(1, some 10), (2, some 30)] 75 95).map ABCRow.cumPct).getLast?
      = some 100 := by
  have h := C3_cumulative_pct [(1, some 10), (2, some 30)] 75 95 (by
    intro r hr
    rcases List.mem_cons.mp hr with rfl | hr2
    · norm_num
    rcases List.mem_cons.mp hr2 with rfl | hr3
    · norm_num
    · simp at hr3)
  refine ⟨h.1, h.2 ?_⟩
  have hagg : abcAgg [(1, some 10), (2, some 30)] = [(1, 10), (2, 30)] := by
    simp +decide [abcAgg, abcFilled, aggregate, sortAsc, insertAsc,
      List.dedup_cons_of_not_mem, List.filter_cons]
  have hsorted : abcSorted [(1, some 10), (2, some 30)] = [(2, 30), (1, 10)] := by
    rw [abcSorted, hagg]
    norm_num [sortDescVal, insertDescVal]
  rw [abcTotalRaw, hsorted]
  norm_num

/-! ### C6: ranking order and tie-breaking of the ABC classification -/

/-- C6 counterexample: the claim says equal aggregated values are ranked by
original row order first (here part 2 came first), but the code aggregates
into ascending part order before the value sort, discarding the row order;
on this two-row frame the source's sort runs its order-preserving
insertion-sort base case, so part 1 is ranked first, against the claimed
tie-break. -/
theorem C6_counterexample :
    (abc_classification [(2, some 5), (1, some 5)] 75 95).map ABCRow.part = [1, 2] := by
  have hagg : abcAgg [(2, some 5), (1, some 5)] = [(1, 5), (2, 5)] := by
    simp +decide [abcAgg, abcFilled, aggregate, sortAsc, insertAsc,
      List.dedup_cons_of_not_mem, List.filter_cons]
  have hsorted : abcSorted [(2, some 5), (1, some 5)] = [(1, 5), (2, 5)] := by
    rw [abcSorted, hagg]
    norm_num [sortDescVal, insertDescVal]
  unfold abc_classification
  rw [hsorted]
  rfl

/-- C6 (amended): the ABC ranking sorts parts by aggregated value
descending.  The order among parts with equal aggregated value is a detail
of the sort that the program does not pin down, but it cannot depend on the
original row order - the sort sees only the aggregated per-part values, so
permuting the input rows leaves the entire ABC output unchanged: the output
is a deterministic function of the per-part aggregated values. -/
theorem C6_amended_value_ranking_row_order_free :
    (∀ (rows : List (ℕ × Option ℚ)) (aPct bPct : ℚ),
      List.Pairwise (fun a b : ABCRow => b.totalValue ≤ a.totalValue)
        (abc_classification rows aPct bPct)) ∧
    (∀ (rows rows' : List (ℕ × Option ℚ)) (aPct bPct : ℚ), rows.Perm rows' →
      abc_classification rows aPct bPct = abc_classification rows' aPct bPct) := by
  constructor
  · intro rows aPct bPct
    unfold abc_classification
    rw [List.pairwise_map]
    have hz := pairwise_zip_left (abcSorted rows)
      (cumsum ((abcSorted rows).map Prod.snd)) (pairwise_le_sortDescVal (abcAgg rows))
    exact hz.imp (fun h => h)
  · intro rows rows' aPct bPct h
    have hf : (abcFilled rows).Perm (abcFilled rows') := by
      unfold abcFilled
      exact h.map _
    have hagg : abcAgg rows = abcAgg rows' := aggregate_eq_of_perm hf
    have hs : abcSorted rows = abcSorted rows' := by
      rw [abcSorted, abcSorted, hagg]
    have ht : abcTotal rows = abcTotal rows' := by
      rw [abcTotal, abcTotal, abcTotalRaw, abcTotalRaw, hs]
    unfold abc_classification
    rw [hs, ht]

/-- Witness for C6 (amended): the ranking of a concrete tied input is
value-descending, and swapping the two input rows leaves the output
unchanged. -/
theorem C6_amended_value_ranking_row_order_free_witness :
    List.Pairwise (fun a b : ABCRow => b.totalValue ≤ a.totalValue)
      (abc_classification [(2, some 5), (1, some 5)] 75 95) ∧
    abc_classification [(2, some 5), (1, some 5)] 75 95
      = abc_classification [(1, some 5), (2, some 5)] 75 95 :=
  ⟨C6_amended_value_ranking_row_order_free.1 [(2, some 5), (1, some 5)] 75 95,
   C6_amended_value_ranking_row_order_free.2 [(2, some 5), (1, some 5)]
     [(1, some 5), (2, some 5)] 75 95 (List.Perm.swap (1, some 5) (2, some 5) [])⟩

/-! ### C4: the minimum-transaction override -/

/-- C4: every part whose raw transaction count inside the trailing window is
strictly below the minimum-transaction threshold is classified "H" by the
variability classifier, whatever its coefficient of variation is - for every
window, thresholds and square root. -/
theorem C4_insufficient_history_forces_H
    (sq : ℚ → ℚ) (todayM : ℤ) (months : ℕ) (low high : ℚ) (minTxn : ℕ)
    (rows : List Obs) (r : LMHRow)
    (hr : r ∈ lmhClassification sq todayM months low high minTxn rows)
    (hc : lmhTxnCount todayM months rows r.part < minTxn) :
    r.lmh = "H" := by
  simp only [lmhClassification, List.mem_map] at hr
  obtain ⟨p, hp, rfl⟩ := hr
  have hc' : lmhTxnCount todayM months rows p < minTxn := hc
  show (if minTxn ≤ lmhTxnCount todayM months rows p
        then lmhSelect low high
          (vodOf (listMean (lmhSeries todayM months rows p))
            (sq (sampleVar (lmhSeries todayM months rows p))))
        else "H") = "H"
  rw [if_neg (by omega)]

/-- Witness for C4: a single observation (count 1 < 3) is classified "H". -/
theorem C4_insufficient_history_forces_H_witness :
    (⟨1, 0, 5, 0, "H"⟩ : LMHRow) ∈ lmhClassification sqZero 0 1 2 4 3 [⟨1, 0, 5⟩] ∧
    lmhTxnCount 0 1 [⟨1, 0, 5⟩] 1 < 3 ∧
    (⟨1, 0, 5, 0, "H"⟩ : LMHRow).lmh = "H" := by
  have hmem : (⟨1, 0, 5, 0, "H"⟩ : LMHRow) ∈ lmhClassification sqZero 0 1 2 4 3 [⟨1, 0, 5⟩] := by
    have : lmhClassification sqZero 0 1 2 4 3 [⟨1, 0, 5⟩] = [⟨1, 0, 5, 0, "H"⟩] := by
      norm_num [lmhClassification, lmhParts, lmhFiltered, inWindow, windowStart,
        lmhAllMonths, lmhSeries, monthlySum, lmhTxnCount, listMean, sampleVar,
        vodOf, sqZero, List.filter_cons, sortAsc, insertAsc, List.range_succ]
    rw [this]
    exact List.mem_cons_self _ _
  have hcount : lmhTxnCount 0 1 [⟨1, 0, 5⟩] 1 < 3 := by
    norm_num [lmhTxnCount, lmhFiltered, inWindow, windowStart, List.filter_cons]
  exact ⟨hmem, hcount,
    C4_insufficient_history_forces_H sqZero 0 1 2 4 3 [⟨1, 0, 5⟩] _ hmem hcount⟩

/-! ### C7: position of the trailing window -/

/-- C7 counterexample: the claim says the window ends at the most recent
complete month, excluding the current month's observations, but
`current_month_end` is the last day of the month containing `now()`: an
observation dated in the current month (index 700, with today in month 700)
passes the window filter and its part appears in the classifier output. -/
theorem C7_counterexample :
    inWindow 700 36 700 = true ∧
    (lmhClassification sqZero 700 36 2 4 3 [⟨1, 700, 5⟩]).length = 1 := by
  constructor
  · decide
  · simp only [lmhClassification, List.length_map]
    decide

/-- C7 (amended): the trailing window of the variability classifier ends at
the current month - the month of `now()` itself, complete or not - and
spans exactly the `months` month indices from `todayM - (months - 1)` up to
`todayM` inclusive; in particular the current month is always inside the
window, so current-month observations are not excluded. -/
theorem C7_amended_window_ends_at_current_month (todayM : ℤ) (months : ℕ) (m : ℤ)
    (hm : 1 ≤ months) :
    (inWindow todayM months m = true ↔ todayM - ((months : ℤ) - 1) ≤ m ∧ m ≤ todayM) ∧
    inWindow todayM months todayM = true := by
  constructor
  · simp [inWindow, windowStart]
  · simp only [inWindow, windowStart, Bool.and_eq_true, decide_eq_true_eq]
    omega

/-- Witness for C7 (amended) at a concrete window. -/
theorem C7_amended_window_ends_at_current_month_witness :
    (inWindow 700 36 690 = true ↔ (700 : ℤ) - ((36 : ℤ) - 1) ≤ 690 ∧ (690 : ℤ) ≤ 700) ∧
    inWindow 700 36 700 = true :=
  C7_amended_window_ends_at_current_month 700 36 690 (by decide)

/-! ### C8: missing-data defaults -/

/-- C8: missing data is resolved by defaults: a part present in the ABC
output but matching no row of the variability output gets class "H" in the
nine-box join (and its nine-box code is its category followed by "H"),
and a segment code not present in a service-level policy table gets the
fallback service level 0.85. -/
theorem C8_missing_data_defaults :
    (∀ (abcRows : List ABCRow) (lmhRows : List LMHRow) (a : ABCRow), a ∈ abcRows →
      (∀ l ∈ lmhRows, l.part ≠ a.part) →
      nineRowFor lmhRows a ∈ make_nine_box abcRows lmhRows ∧
      (nineRowFor lmhRows a).lmh = "H" ∧
      (nineRowFor lmhRows a).nineBox = a.category ++ "H") ∧
    (∀ (policy : List (String × ℚ)) (code : String), (∀ e ∈ policy, e.1 ≠ code) →
      policyGet policy code = 0.85) := by
  constructor
  · intro abcRows lmhRows a ha hno
    have hfind : lmhRows.find? (fun r => r.part == a.part) = none := by
      rw [List.find?_eq_none]
      intro l hl
      simpa using hno l hl
    refine ⟨List.mem_map_of_mem _ ha, ?_, ?_⟩
    · simp [nineRowFor, hfind]
    · simp [nineRowFor, hfind]
  · intro policy code hno
    have hfind : policy.find? (fun e => e.1 == code) = none := by
      rw [List.find?_eq_none]
      intro e he
      simpa using hno e he
    simp [policyGet, hfind]

/-- Witness for C8: a part with no variability row defaults to "H"/"CH",
and the unknown segment code "XX" gets service level 0.85 from the default
policy table. -/
theorem C8_missing_data_defaults_witness :
    nineRowFor [] ⟨1, 5, 100, "C"⟩ ∈ make_nine_box [⟨1, 5, 100, "C"⟩] [] ∧
    (nineRowFor [] ⟨1, 5, 100, "C"⟩).lmh = "H" ∧
    (nineRowFor [] ⟨1, 5, 100, "C"⟩).nineBox = "CH" ∧
    policyGet defaultPolicy "XX" = 0.85 := by
  have h := C8_missing_data_defaults
  have h1 := h.1 [⟨1, 5, 100, "C"⟩] [] ⟨1, 5, 100, "C"⟩ (List.mem_cons_self _ _) (by simp)
  exact ⟨h1.1, h1.2.1, h1.2.2, h.2 defaultPolicy "XX" (by decide)⟩

/-! ### C9: determinism of the pipeline across runs -/

/-- C9 (amended): the classification pipeline is a deterministic function of
its input tables and the calendar month of the run: two runs on identical
inputs whose dates share year and month (the only parts of `now()` the code
reads) produce identical outputs.  Runs in different months may differ,
because the trailing window is anchored at the current month. -/
theorem C9_amended_same_month_deterministic
    (sq : ℚ → ℚ) (d₁ d₂ : RunDate) (months : ℕ) (low high : ℚ) (minTxn : ℕ)
    (aPct bPct : ℚ) (rows : List SalesRow)
    (hy : d₁.year = d₂.year) (hm : d₁.month = d₂.month) :
    pipelineNine sq d₁ months low high minTxn aPct bPct rows =
    pipelineNine sq d₂ months low high minTxn aPct bPct rows := by
  unfold pipelineNine lmhRun monthIndex
  rw [hy, hm]

/-- Witness for C9 (amended): two runs on different days of the same month
coincide. -/
theorem C9_amended_same_month_deterministic_witness :
    pipelineNine sqZero ⟨2026, 10, 1⟩ 36 2 4 3 75 95 [⟨1, 24320, 4, some 10⟩] =
    pipelineNine sqZero ⟨2026, 10, 31⟩ 36 2 4 3 75 95 [⟨1, 24320, 4, some 10⟩] :=
  C9_amended_same_month_deterministic sqZero ⟨2026, 10, 1⟩ ⟨2026, 10, 31⟩ 36 2 4 3 75 95
    [⟨1, 24320, 4, some 10⟩] rfl rfl

/-- C9 counterexample: two runs on the same input in different months give
different output tables.  Three demand rows for part 1 in month index 24320
(November run has them fall out of the 2-month window): the October run
(current month 24321) classifies the part "L", nine-box "CL"; the November
run (current month 24322) loses the part's history and the nine-box join
defaults it to "H", nine-box "CH". -/
theorem C9_counterexample :
    (pipelineNine sqZero ⟨2026, 10, 1⟩ 2 2 4 3 75 95
        [⟨1, 24320, 4, some 10⟩, ⟨1, 24320, 4, some 10⟩, ⟨1, 24320, 4, some 10⟩]).map
      NineRow.nineBox = ["CL"] ∧
    (pipelineNine sqZero ⟨2026, 11, 1⟩ 2 2 4 3 75 95
        [⟨1, 24320, 4, some 10⟩, ⟨1, 24320, 4, some 10⟩, ⟨1, 24320, 4, some 10⟩]).map
      NineRow.nineBox = ["CH"] := by
  have hagg : abcAgg [(1, some 10), (1, some 10), (1, some 10)] = [(1, 30)] := by
    simp +decide [abcAgg, abcFilled, aggregate, sortAsc, insertAsc,
      List.dedup_cons_of_mem, List.dedup_cons_of_not_mem, List.filter_cons]
    norm_num
  have hsorted : abcSorted [(1, some 10), (1, some 10), (1, some 10)] = [(1, 30)] := by
    rw [abcSorted, hagg]
    norm_num [sortDescVal, insertDescVal]
  have hraw : abcTotalRaw [(1, some 10), (1, some 10), (1, some 10)] = 30 := by
    rw [abcTotalRaw, hsorted]
    norm_num
  have htot : abcTotal [(1, some 10), (1, some 10), (1, some 10)] = 30 := by
    rw [abcTotal, hraw]
    norm_num
  have habc : abc_classification [(1, some 10), (1, some 10), (1, some 10)] 75 95
      = [⟨1, 30, 100, "C"⟩] := by
    unfold abc_classification
    rw [hsorted, htot]
    norm_num [cumsum, cumsumFrom, abcCategory, List.zip_cons_cons, List.zip_nil_right]
  have hlmh1 : lmhClassification sqZero 24321 2 2 4 3
      [⟨1, 24320, 4⟩, ⟨1, 24320, 4⟩, ⟨1, 24320, 4⟩] = [⟨1, 0, 6, 0, "L"⟩] := by
    norm_num [lmhClassification, lmhParts, lmhFiltered, inWindow, windowStart,
      lmhAllMonths, lmhSeries, monthlySum, lmhTxnCount, listMean, sampleVar,
      vodOf, lmhSelect, sqZero, List.filter_cons, sortAsc, insertAsc,
      List.range_succ, List.dedup_cons_of_mem, List.dedup_cons_of_not_mem]
  have hlmh2 : lmhClassification sqZero 24322 2 2 4 3
      [⟨1, 24320, 4⟩, ⟨1, 24320, 4⟩, ⟨1, 24320, 4⟩] = [] := by
    norm_num [lmhClassification, lmhParts, lmhFiltered, inWindow, windowStart,
      List.filter_cons, sortAsc]
  constructor
  · show (make_nine_box (abc_classification [(1, some 10), (1, some 10), (1, some 10)] 75 95)
        (lmhClassification sqZero 24321 2 2 4 3
          [⟨1, 24320, 4⟩, ⟨1, 24320, 4⟩, ⟨1, 24320, 4⟩])).map NineRow.nineBox = ["CL"]
    rw [habc, hlmh1]
    rfl
  · show (make_nine_box (abc_classification [(1, some 10), (1, some 10), (1, some 10)] 75 95)
        (lmhClassification sqZero 24322 2 2 4 3
          [⟨1, 24320, 4⟩, ⟨1, 24320, 4⟩, ⟨1, 24320, 4⟩])).map NineRow.nineBox = ["CH"]
    rw [habc, hlmh2]
    rfl
